import Mathlib

/-!
# Verification of the juju singular-coordination core and related components

Shallow embedding of:
* the mastership test harness (`worker/singular` test file): the event
  automaton `globalAgentState` with `possibleEvents` / `waitEvent`, the
  oracle implementation `mongoConn.IsMaster`, and the fatal-error
  classifier `connectionIsFatal`;
* the singular Coordinator itself (its package is not among the provided
  sources, so it is modelled from the specification, marked below);
* `skipOperation` from `worker/caasoperator/operation/skip.go`;
* the affinity-group / virtual-network error handling of
  `azureEnviron.Bootstrap` from the Azure provider.
-/

/-- A Go `error` value as observed by the code embedded here: its message
string, and, when the dynamic type implements `gwacl.HTTPError`, the HTTP
status code it reports. -/
structure GoError where
  message : String
  httpStatus : Option Nat := none
deriving DecidableEq, Repr

/-! ## skipOperation (worker/caasoperator/operation/skip.go) -/

/-- The sentinel errors of the operation package that the embedded code
returns (`ErrSkipExecute` is the one `skipOperation` uses). -/
inductive OperationError where
  | errSkipExecute
deriving DecidableEq, Repr

namespace skipOperation

/-- `skipOperation.Prepare`: `return nil, ErrSkipExecute` for every input
state (the state type is abstract here, as the operation never inspects it). -/
def Prepare {State : Type} (state : State) : Option State × OperationError :=
  (none, OperationError.errSkipExecute)

/-- `skipOperation.Execute`: `return nil, ErrSkipExecute` for every input
state. -/
def Execute {State : Type} (state : State) : Option State × OperationError :=
  (none, OperationError.errSkipExecute)

end skipOperation

/-! ## mongoConn (singular test harness) -/

/-- The `mongoConn` oracle: it remembers the local replica's own
host:port; its queries go through an `mgo` session whose answers are
supplied as explicit inputs below. -/
structure mongoConn where
  localHostPort : String
deriving DecidableEq, Repr

/-- `mongoConn.IsMaster`: resolve the replica set's current master
host:port (`replicaset.MasterHostPort`, whose outcome is the explicit
argument); on error return `(false, err)`, otherwise compare the resolved
address with the local one. -/
def mongoConn.IsMaster (c : mongoConn) (masterHostPort : Except GoError String) :
    Bool × Option GoError :=
  match masterHostPort with
  | Except.error err => (false, some err)
  | Except.ok hostPort => (hostPort == c.localHostPort, none)

/-- `connectionIsFatal conn` returns a classifier closure: an error is
diagnosed as fatal iff `conn.Ping()` fails at classification time
(the ping outcome is the explicit `pingErr` argument). -/
def connectionIsFatal (pingErr : Option GoError) (err : GoError) : Bool :=
  match pingErr with
  | some _ => true
  | none => false

/-! ## Azure provider: Bootstrap error handling (provider/azure) -/

/-- `http.StatusConflict`. -/
def statusConflict : Nat := 409

/-- `isHTTPConflict`: the error asserts to `gwacl.HTTPError` and its
`StatusCode()` is `http.StatusConflict`. -/
def isHTTPConflict (err : GoError) : Bool :=
  match err.httpStatus with
  | some code => code == statusConflict
  | none => false

/-- `isVirtualNetworkExist`: the error text starts with
"could not add virtual network" and ends with "already exists"
(`strings.HasPrefix` / `strings.HasSuffix`, on the character sequence). -/
def isVirtualNetworkExist (err : GoError) : Bool :=
  let s := err.message.toList
  ("could not add virtual network".toList.isPrefixOf s) &&
  ("already exists".toList.isSuffixOf s)

/-- `azureEnviron.Bootstrap`, dispatch part: create the affinity group
(outcome `agErr`), aborting unless the failure is an HTTP conflict;
then create the virtual network (outcome `vnetErr`), aborting unless the
failure is "already exists"; then hand over to `common.Bootstrap`
(outcome `commonResult`).  The deferred cleanups do not change the
returned value and are not modelled. -/
def azureBootstrap (agErr vnetErr : Option GoError)
    (commonResult : Except GoError Unit) : Except GoError Unit :=
  match agErr with
  | some e =>
    if isHTTPConflict e then
      match vnetErr with
      | some e2 =>
        if isVirtualNetworkExist e2 then commonResult else Except.error e2
      | none => commonResult
    else Except.error e
  | none =>
    match vnetErr with
    | some e2 =>
      if isVirtualNetworkExist e2 then commonResult else Except.error e2
    | none => commonResult

/-! ## Singular Coordinator (spec model)

The `worker/singular` package itself is not among the provided source
files (only its test harness is), so the Coordinator is modelled from the
specification, §3 "CoordinatorState" and §4.1. -/

/-- Modelled from the spec: the Coordinator's mastership belief,
`{Unknown, Master, NotMaster}` (the `singular` package's own state is not
among the provided sources). -/
inductive Mastership where
  | unknown
  | master
  | notMaster
deriving DecidableEq, Repr

/-- Modelled from the spec: `CoordinatorState`
`{ mastership, registered ids, running ids, terminated }` of the missing
`singular` package. -/
structure CoordinatorState where
  mastership : Mastership
  registered : List String
  running : List String
  terminated : Bool
deriving DecidableEq, Repr

/-- Modelled from the spec: the initial Coordinator state, with
`mastership = Unknown`, nothing registered, nothing running. -/
def initialCoordinator : CoordinatorState :=
  { mastership := Mastership.unknown, registered := [], running := [],
    terminated := false }

/-- Modelled from the spec: `singular.New(supervisor, oracle)` fails iff
the oracle's initial `Ping` fails (outcome `pingErr`), and otherwise
returns a fresh Coordinator. -/
def singularNew (pingErr : Option GoError) : Except GoError CoordinatorState :=
  match pingErr with
  | some e => Except.error e
  | none => Except.ok initialCoordinator

/-- Modelled from the spec: the error returned by a duplicate
registration. -/
inductive StartWorkerError where
  | duplicateId
deriving DecidableEq, Repr

/-- Modelled from the spec: `StartWorker(id, factory)` on the missing
`singular` package.  A duplicate id fails with `DuplicateId` and changes
nothing; otherwise the id is registered, and started immediately when the
Coordinator currently believes it is master (and is not terminated). -/
def StartWorker (s : CoordinatorState) (id : String) :
    CoordinatorState × Option StartWorkerError :=
  if id ∈ s.registered then
    (s, some StartWorkerError.duplicateId)
  else
    let s' := { s with registered := s.registered ++ [id] }
    if s.mastership = Mastership.master ∧ s.terminated = false then
      ({ s' with running := s'.running ++ [id] }, none)
    else
      (s', none)

/-- Modelled from the spec: `StopWorker(id)` on the missing `singular`
package: deregister `id`, stopping it if running; always a success, a
no-op for an unregistered id. -/
def StopWorker (s : CoordinatorState) (id : String) :
    CoordinatorState × Option GoError :=
  ({ s with registered := s.registered.erase id,
            running := s.running.erase id }, none)

/-- Modelled from the spec: `Kill()` on the missing `singular` package:
stop all running workers and terminate. -/
def Kill (s : CoordinatorState) : CoordinatorState :=
  { s with running := [], terminated := true }

/-- Modelled from the spec: one iteration of the missing `singular`
package's polling loop (§4.1): ping the oracle, fail fatally on a ping
error; query `IsMaster`, absorbing its errors; otherwise reconcile
`running` and `mastership` with the answer.  The second component is the
fatal error surfaced through `Wait`, if any. -/
def pollTick (s : CoordinatorState) (pingErr : Option GoError)
    (isMasterResult : Except GoError Bool) :
    CoordinatorState × Option GoError :=
  if s.terminated then
    (s, none)
  else
    match pingErr with
    | some e => ({ s with running := [], terminated := true }, some e)
    | none =>
      match isMasterResult with
      | Except.error _ => (s, none)
      | Except.ok b =>
        if b then
          if s.mastership ≠ Mastership.master then
            ({ s with mastership := Mastership.master,
                      running := s.registered }, none)
          else (s, none)
        else
          if s.mastership ≠ Mastership.notMaster then
            ({ s with mastership := Mastership.notMaster,
                      running := [] }, none)
          else (s, none)

/-- The Coordinator states reachable from construction through its
operations. -/
inductive ReachableCoordinator : CoordinatorState → Prop where
  | init : ReachableCoordinator initialCoordinator
  | startW {s} (id : String) : ReachableCoordinator s →
      ReachableCoordinator (StartWorker s id).1
  | stopW {s} (id : String) : ReachableCoordinator s →
      ReachableCoordinator (StopWorker s id).1
  | kill {s} : ReachableCoordinator s → ReachableCoordinator (Kill s)
  | poll {s} (pingErr : Option GoError) (isMasterResult : Except GoError Bool) :
      ReachableCoordinator s →
      ReachableCoordinator (pollTick s pingErr isMasterResult).1

/-- The Coordinator invariant: workers run only under an unterminated
master, only registered ids run, and neither list repeats an id. -/
def CoordinatorInv (s : CoordinatorState) : Prop :=
  (s.running ≠ [] → s.mastership = Mastership.master ∧ s.terminated = false) ∧
  (∀ x ∈ s.running, x ∈ s.registered) ∧
  s.registered.Nodup ∧ s.running.Nodup

/-! ## Mastership test harness: the event automaton (singular test file)

The test observes each agent through events `connect`, `start`,
`operation`, `stop`, `quit` and validates them with `globalAgentState`:
`possibleEvents` lists what may legally come next, `waitEvent` applies a
received event (failing the test on a mixed operation). -/

/-- An observed `event{kind, id}` (agent ids start at 1). -/
structure GEvent where
  kind : String
  id : Int
deriving DecidableEq, Repr

/-- The harness's `globalAgentState`: per-agent `connected` / `started` /
`quit` flags and the id of the currently active agent (`-1` when none). -/
structure globalAgentState where
  numAgents : Nat
  connected : List Bool
  started : List Bool
  quit : List Bool
  activeId : Int
deriving DecidableEq, Repr

/-- `newGlobalAgentState(n)`: all flags false, `activeId = -1`. -/
def newGlobalAgentState (n : Nat) : globalAgentState :=
  { numAgents := n
    connected := List.replicate n false
    started := List.replicate n false
    quit := List.replicate n false
    activeId := -1 }

/-- `globalAgentState.possibleEvents`: the events that may legally be
observed next.  For each agent `i` (id `i+1`): an unconnected agent may
connect; a connected, started agent may stop, and may emit an operation
when no other agent is active; a connected, unstarted agent may start,
re-connect, or (if it has not yet quit) quit. -/
def globalAgentState.possibleEvents (g : globalAgentState) : List GEvent :=
  (List.range g.numAgents).flatMap fun i =>
    let isConnected := g.connected.getD i false
    let isStarted := g.started.getD i false
    let hasQuit := g.quit.getD i false
    let id : Int := (i : Int) + 1
    if isConnected then
      if isStarted then
        (if g.activeId = -1 ∨ id = g.activeId then
          [{ kind := "operation", id := id }] else []) ++
        [{ kind := "stop", id := id }]
      else
        [{ kind := "start", id := id }, { kind := "connect", id := id }] ++
        (if ¬hasQuit then [{ kind := "quit", id := id }] else [])
    else
      [{ kind := "connect", id := id }]

/-- `globalAgentState.waitEvent`, state-update part: apply one received
event.  `none` models the test failures (`mixed operations from different
agents`, unexpected kind). -/
def globalAgentState.waitEvent (g : globalAgentState) (e : GEvent) :
    Option globalAgentState :=
  let index := (e.id - 1).toNat
  match e.kind with
  | "connect" => some { g with connected := g.connected.set index true }
  | "start" => some { g with started := g.started.set index true }
  | "operation" =>
    if g.activeId ≠ -1 ∧ g.activeId ≠ e.id then none
    else some { g with activeId := e.id }
  | "stop" => some { g with activeId := -1, started := g.started.set index false }
  | "quit" => some { g with quit := g.quit.set index true }
  | _ => none

/-- An accepted observation: each event is among `possibleEvents` of the
current state (the harness's `expect`) and is then applied by
`waitEvent`. -/
inductive Run : globalAgentState → List GEvent → globalAgentState → Prop where
  | nil (g : globalAgentState) : Run g [] g
  | cons {g g' g'' : globalAgentState} {e : GEvent} {es : List GEvent}
      (hmem : e ∈ g.possibleEvents)
      (hstep : g.waitEvent e = some g')
      (htail : Run g' es g'') : Run g (e :: es) g''

/-- Well-formedness of a harness state: one flag per agent in each list. -/
def globalAgentState.WF (g : globalAgentState) : Prop :=
  g.connected.length = g.numAgents ∧ g.started.length = g.numAgents ∧
  g.quit.length = g.numAgents

/-- The kinds of the start/stop events of agent `id`, in order of
observation. -/
def startStopKinds (id : Int) (tr : List GEvent) : List String :=
  (tr.filter fun e => e.id == id && (e.kind == "start" || e.kind == "stop")).map
    GEvent.kind

/-- `alternatesFrom b ks`: the kinds `ks` strictly alternate between
`"start"` and `"stop"`, the next expected kind being `"stop"` when `b` is
true. -/
def alternatesFrom : Bool → List String → Prop
  | _, [] => True
  | b, k :: ks => k = (if b then "stop" else "start") ∧ alternatesFrom (!b) ks

/-! ## Theorems -/

/-- C9: `skipOperation.Prepare` and `skipOperation.Execute` both return a
nil result state together with `ErrSkipExecute`, for every input state. -/
theorem skip_operation_never_prepares_or_executes {State : Type} (state : State) :
    skipOperation.Prepare state = (none, OperationError.errSkipExecute) ∧
    skipOperation.Execute state = (none, OperationError.errSkipExecute) :=
  ⟨rfl, rfl⟩

/-- C8: the replicated-store oracle's `IsMaster` answers `true` exactly
when the resolved primary address equals the local replica's own address,
with no error; when primary resolution fails it answers `false` together
with that error. -/
theorem mongoConn_isMaster_correct (c : mongoConn) (hostPort : String)
    (e : GoError) :
    ((c.IsMaster (Except.ok hostPort)).1 = true ↔ hostPort = c.localHostPort) ∧
    (c.IsMaster (Except.ok hostPort)).2 = none ∧
    c.IsMaster (Except.error e) = (false, some e) := by
  refine ⟨?_, rfl, rfl⟩
  simp [mongoConn.IsMaster]

/-- C6: `New(supervisor, oracle)` returns exactly the initial ping error
when the initial `Ping` fails, and otherwise a fresh Coordinator. -/
theorem singularNew_fails_iff_ping_fails (e : GoError) :
    singularNew (some e) = Except.error e ∧
    singularNew none = Except.ok initialCoordinator :=
  ⟨rfl, rfl⟩

/-- C5: an `IsMaster` failure during a poll iteration is absorbed: the
state (in particular `mastership` and `running`) is unchanged and no
error is surfaced. -/
theorem isMaster_failure_absorbed (s : CoordinatorState) (e : GoError) :
    pollTick s none (Except.error e) = (s, none) := by
  by_cases h : s.terminated <;> simp [pollTick, h]

/-- C2: when `Ping` fails on a live Coordinator, the poll iteration stops
every running worker, terminates the Coordinator, and surfaces the ping
error through `Wait`; and the classifier installed by the fleet member
(`connectionIsFatal`) classifies any worker error as fatal exactly when a
ping of the connection fails at classification time. -/
theorem ping_failure_is_fatal (s : CoordinatorState) (e werr : GoError)
    (m : Except GoError Bool) (h : s.terminated = false) :
    (pollTick s (some e) m).1.running = [] ∧
    (pollTick s (some e) m).1.terminated = true ∧
    (pollTick s (some e) m).2 = some e ∧
    connectionIsFatal (some e) werr = true ∧
    connectionIsFatal none werr = false := by
  simp [pollTick, h, connectionIsFatal]

/-- Witness for C2 at a concrete live Coordinator and concrete errors. -/
theorem ping_failure_is_fatal_witness :
    (pollTick initialCoordinator (some { message := "conn reset" })
      (Except.ok true)).1.running = [] ∧
    (pollTick initialCoordinator (some { message := "conn reset" })
      (Except.ok true)).1.terminated = true ∧
    (pollTick initialCoordinator (some { message := "conn reset" })
      (Except.ok true)).2 = some { message := "conn reset" } ∧
    connectionIsFatal (some { message := "conn reset" }) { message := "boom" } = true ∧
    connectionIsFatal none { message := "boom" } = false :=
  ping_failure_is_fatal initialCoordinator { message := "conn reset" }
    { message := "boom" } (Except.ok true) rfl

/-- C10: `Bootstrap` tolerates an HTTP 409 Conflict from affinity-group
creation and an "already exists" failure from virtual-network creation,
proceeding as if creation had succeeded; any other creation error aborts
`Bootstrap` and is returned. -/
theorem azureBootstrap_tolerates_existing_resources (e e2 : GoError)
    (vnetErr : Option GoError) (commonResult : Except GoError Unit) :
    (isHTTPConflict e = true →
      azureBootstrap (some e) vnetErr commonResult =
        azureBootstrap none vnetErr commonResult) ∧
    (isVirtualNetworkExist e2 = true →
      azureBootstrap none (some e2) commonResult = commonResult) ∧
    (isHTTPConflict e = false →
      azureBootstrap (some e) vnetErr commonResult = Except.error e) ∧
    (isVirtualNetworkExist e2 = false →
      azureBootstrap none (some e2) commonResult = Except.error e2) := by
  refine ⟨fun h1 => ?_, fun h2 => ?_, fun h3 => ?_, fun h4 => ?_⟩
  · simp [azureBootstrap, h1]
  · simp [azureBootstrap, h2]
  · simp [azureBootstrap, h3]
  · simp [azureBootstrap, h4]

/-- Witness for C10: a 409 conflict and an "already exists" failure are
tolerated, a plain error aborts, at concrete inputs. -/
theorem azureBootstrap_tolerates_existing_resources_witness :
    azureBootstrap (some { message := "conflict", httpStatus := some 409 })
      none (Except.ok ()) = azureBootstrap none none (Except.ok ()) ∧
    azureBootstrap none
      (some { message := "could not add virtual network vn: already exists" })
      (Except.ok ()) = Except.ok () ∧
    azureBootstrap (some { message := "boom" }) none (Except.ok ()) =
      Except.error { message := "boom" } ∧
    azureBootstrap none (some { message := "boom" }) (Except.ok ()) =
      Except.error { message := "boom" } := by
  refine ⟨?_, ?_, ?_, ?_⟩
  · exact (azureBootstrap_tolerates_existing_resources
      { message := "conflict", httpStatus := some 409 } { message := "x" }
      none (Except.ok ())).1 (by decide)
  · exact (azureBootstrap_tolerates_existing_resources { message := "x" }
      { message := "could not add virtual network vn: already exists" }
      none (Except.ok ())).2.1 (by decide)
  · exact (azureBootstrap_tolerates_existing_resources { message := "boom" }
      { message := "x" } none (Except.ok ())).2.2.1 (by decide)
  · exact (azureBootstrap_tolerates_existing_resources { message := "x" }
      { message := "boom" } none (Except.ok ())).2.2.2 (by decide)

/-- Every reachable Coordinator state satisfies the invariant (shared
helper: induction over the reachability relation). -/
theorem coordinatorInv_reachable {s : CoordinatorState}
    (h : ReachableCoordinator s) : CoordinatorInv s := by
  induction h with
  | init =>
    refine ⟨fun hne => absurd rfl hne, ?_, ?_, ?_⟩ <;> simp [initialCoordinator]
  | startW id hs ih =>
    rename_i s
    obtain ⟨h1, h2, h3, h4⟩ := ih
    by_cases hmem : id ∈ s.registered
    · simpa [StartWorker, hmem] using ⟨h1, h2, h3, h4⟩
    · have hidrun : id ∉ s.running := fun hc => hmem (h2 id hc)
      rw [StartWorker, if_neg hmem]
      by_cases hmt : s.mastership = Mastership.master ∧ s.terminated = false
      · rw [if_pos hmt]
        refine ⟨fun _ => hmt, ?_, ?_, ?_⟩
        · intro x hx
          rcases List.mem_append.mp hx with hx | hx
          · exact List.mem_append.mpr (Or.inl (h2 x hx))
          · exact List.mem_append.mpr (Or.inr hx)
        · simp only [List.nodup_append, List.nodup_cons, List.not_mem_nil,
            not_false_iff, List.nodup_nil, List.disjoint_singleton]
          exact ⟨h3, by simp, by simpa using hmem⟩
        · simp only [List.nodup_append, List.nodup_cons, List.not_mem_nil,
            not_false_iff, List.nodup_nil, List.disjoint_singleton]
          exact ⟨h4, by simp, by simpa using hidrun⟩
      · rw [if_neg hmt]
        refine ⟨fun hne => h1 hne, ?_, ?_, h4⟩
        · intro x hx
          exact List.mem_append.mpr (Or.inl (h2 x hx))
        · simp only [List.nodup_append, List.nodup_cons, List.not_mem_nil,
            not_false_iff, List.nodup_nil, List.disjoint_singleton]
          exact ⟨h3, by simp, by simpa using hmem⟩
  | stopW id hs ih =>
    rename_i s
    obtain ⟨h1, h2, h3, h4⟩ := ih
    refine ⟨?_, ?_, h3.erase id, h4.erase id⟩
    · intro hne
      exact h1 fun hemp => hne (by simp [StopWorker, hemp])
    · intro x hx
      simp only [StopWorker] at hx ⊢
      have hx' := (h4.mem_erase_iff).mp hx
      exact (h3.mem_erase_iff).mpr ⟨hx'.1, h2 x hx'.2⟩
  | kill hs ih =>
    refine ⟨fun hne => absurd rfl hne, ?_, ih.2.2.1, ?_⟩ <;> simp [Kill]
  | poll pingErr isMasterResult hs ih =>
    rename_i s
    obtain ⟨h1, h2, h3, h4⟩ := ih
    by_cases ht : s.terminated = true
    · simpa [pollTick, ht] using ⟨h1, h2, h3, h4⟩
    · cases pingErr with
      | some e =>
        have hred : pollTick s (some e) isMasterResult =
            ({ s with running := [], terminated := true }, some e) := by
          simp [pollTick, ht]
        rw [hred]
        exact ⟨fun hne => absurd rfl hne, by simp, h3, by simp⟩
      | none =>
        cases isMasterResult with
        | error e =>
          simpa [pollTick, ht] using ⟨h1, h2, h3, h4⟩
        | ok b =>
          cases b with
          | true =>
            by_cases hm : s.mastership = Mastership.master
            · simpa [pollTick, ht, hm] using ⟨h1, h2, h3, h4⟩
            · refine ⟨?_, ?_, ?_, ?_⟩ <;> simp_all [pollTick, ht, hm]
          | false =>
            by_cases hm : s.mastership = Mastership.notMaster
            · simpa [pollTick, ht, hm] using ⟨h1, h2, h3, h4⟩
            · refine ⟨?_, ?_, ?_, ?_⟩ <;> simp_all [pollTick, ht, hm]

/-- C3: for every reachable Coordinator state, started workers exist only
while the Coordinator believes it is master and is not terminated; the
property is preserved by every operation since reachability is closed
under all of them. -/
theorem running_requires_mastership (s : CoordinatorState)
    (h : ReachableCoordinator s) :
    s.running ≠ [] → s.mastership = Mastership.master ∧ s.terminated = false :=
  (coordinatorInv_reachable h).1

/-- Witness for C3 at a concrete reachable state with a running worker. -/
theorem running_requires_mastership_witness :
    (pollTick (StartWorker initialCoordinator "w").1 none
      (Except.ok true)).1.mastership = Mastership.master ∧
    (pollTick (StartWorker initialCoordinator "w").1 none
      (Except.ok true)).1.terminated = false :=
  running_requires_mastership _
    (ReachableCoordinator.poll none (Except.ok true)
      (ReachableCoordinator.startW "w" ReachableCoordinator.init))
    (by decide)

/-- C7: `StartWorker` on an already registered id returns `DuplicateId`
with no state change, and `StopWorker` on an unregistered id is a no-op
success. -/
theorem duplicate_start_and_unregistered_stop (s : CoordinatorState)
    (id : String) (h : ReachableCoordinator s) :
    (id ∈ s.registered →
      StartWorker s id = (s, some StartWorkerError.duplicateId)) ∧
    (id ∉ s.registered → StopWorker s id = (s, none)) := by
  obtain ⟨-, h2, -, -⟩ := coordinatorInv_reachable h
  constructor
  · intro hmem
    simp [StartWorker, hmem]
  · intro hmem
    have hrun : id ∉ s.running := fun hc => hmem (h2 id hc)
    simp [StopWorker, List.erase_of_not_mem hmem, List.erase_of_not_mem hrun]

/-- Witness for C7 at a concrete reachable Coordinator. -/
theorem duplicate_start_and_unregistered_stop_witness :
    StartWorker (StartWorker initialCoordinator "w").1 "w" =
      ((StartWorker initialCoordinator "w").1,
        some StartWorkerError.duplicateId) ∧
    StopWorker (StartWorker initialCoordinator "w").1 "x" =
      ((StartWorker initialCoordinator "w").1, none) :=
  ⟨(duplicate_start_and_unregistered_stop _ "w"
      (ReachableCoordinator.startW "w" ReachableCoordinator.init)).1 (by decide),
   (duplicate_start_and_unregistered_stop _ "x"
      (ReachableCoordinator.startW "w" ReachableCoordinator.init)).2 (by decide)⟩

/-! ## Theorems about the harness event automaton -/

/-- A run over a concatenated trace splits at the junction. -/
theorem run_append {g g'' : globalAgentState} {xs ys : List GEvent}
    (h : Run g (xs ++ ys) g'') : ∃ gm, Run g xs gm ∧ Run gm ys g'' := by
  induction xs generalizing g with
  | nil => exact ⟨g, Run.nil g, h⟩
  | cons e es ih =>
    cases h with
    | cons hmem hstep htail =>
      obtain ⟨gm, h1, h2⟩ := ih htail
      exact ⟨gm, Run.cons hmem hstep h1, h2⟩


/-- A single non-stop step keeps a non-`-1` `activeId` unchanged. -/
theorem waitEvent_activeId_of_not_stop {g g' : globalAgentState} {e : GEvent}
    (hstep : g.waitEvent e = some g') (hk : e.kind ≠ "stop")
    (hne : g.activeId ≠ -1) : g'.activeId = g.activeId := by
  unfold globalAgentState.waitEvent at hstep
  split at hstep
  · cases hstep; rfl
  · cases hstep; rfl
  · rename_i heq
    split at hstep
    · cases hstep
    · rename_i hcond
      cases hstep
      push_neg at hcond
      simp only []
      exact (hcond hne).symm
  · rename_i heq; exact absurd heq hk
  · cases hstep; rfl
  · cases hstep


/-- Along a run without stop events, a non-`-1` `activeId` persists. -/
theorem activeId_no_stop {g g' : globalAgentState} {tr : List GEvent}
    (hrun : Run g tr g') (hnostop : ∀ e ∈ tr, e.kind ≠ "stop")
    (hne : g.activeId ≠ -1) : g'.activeId = g.activeId := by
  induction hrun with
  | nil => rfl
  | cons hmem hstep htail ih =>
    rename_i g0 g1 g2 e es
    have hk := hnostop e (List.mem_cons_self e es)
    have h1 : g1.activeId = g0.activeId := waitEvent_activeId_of_not_stop hstep hk hne
    have h2 : g2.activeId = g1.activeId :=
      ih (fun x hx => hnostop x (List.mem_cons_of_mem e hx)) (h1 ▸ hne)
    rw [h2, h1]


/-- Every event the harness deems possible carries an agent id >= 1. -/
theorem possibleEvents_id_pos {g : globalAgentState} {e : GEvent}
    (h : e ∈ g.possibleEvents) : 1 ≤ e.id := by
  unfold globalAgentState.possibleEvents at h
  rw [List.mem_flatMap] at h
  obtain ⟨i, hi, hmem⟩ := h
  simp only at hmem
  have : e.id = (i : Int) + 1 := by
    split at hmem
    · split at hmem
      · rw [List.mem_append] at hmem
        rcases hmem with hmem | hmem
        · split at hmem
          · simp only [List.mem_singleton] at hmem; subst hmem; rfl
          · simp at hmem
        · simp only [List.mem_singleton] at hmem; subst hmem; rfl
      · rw [List.mem_append] at hmem
        rcases hmem with hmem | hmem
        · simp only [List.mem_cons, List.mem_singleton] at hmem
          rcases hmem with hmem | hmem | hmem <;>
            first
            | (subst hmem; rfl)
            | simp at hmem
        · split at hmem
          · simp only [List.mem_singleton] at hmem; subst hmem; rfl
          · simp at hmem
    · simp only [List.mem_singleton] at hmem; subst hmem; rfl
  omega


/-- Helper: `getD` after `set` at the same in-range index. -/
theorem getD_set_self : ∀ (l : List Bool) (i : Nat) (a d : Bool), i < l.length →
    (l.set i a).getD i d = a
  | _ :: _, 0, _, _, _ => rfl
  | _ :: xs, i + 1, a, d, h => getD_set_self xs i a d (Nat.lt_of_succ_lt_succ h)


/-- Helper: `set` at a different index does not change `getD`. -/
theorem getD_set_ne : ∀ (l : List Bool) (i j : Nat) (a d : Bool), i ≠ j →
    (l.set i a).getD j d = l.getD j d
  | [], _, _, _, _, _ => rfl
  | _ :: _, 0, 0, _, _, h => absurd rfl h
  | _ :: _, 0, _ + 1, _, _, _ => rfl
  | _ :: _, _ + 1, 0, _, _, _ => rfl
  | _ :: xs, i + 1, j + 1, a, d, h =>
    getD_set_ne xs i j a d (fun hc => h (by omega))


/-- Applying an event preserves well-formedness of the flag lists. -/
theorem wf_waitEvent {g g' : globalAgentState} {e : GEvent}
    (hstep : g.waitEvent e = some g') (hwf : g.WF) : g'.WF := by
  obtain ⟨w1, w2, w3⟩ := hwf
  unfold globalAgentState.waitEvent at hstep
  split at hstep <;> first
    | (cases hstep; exact ⟨by simp [w1], by simp [w2], by simp [w3]⟩)
    | (split at hstep
       · cases hstep
       · cases hstep; exact ⟨w1, w2, w3⟩)
    | cases hstep


/-- Inversion for `possibleEvents`: which agent index produced the
event, and what the `started` flag was for start/stop events. -/
theorem possibleEvents_inv {g : globalAgentState} {e : GEvent}
    (h : e ∈ g.possibleEvents) :
    ∃ i : Nat, i < g.numAgents ∧ e.id = (i : Int) + 1 ∧
      (e.kind = "start" → g.started.getD i false = false) ∧
      (e.kind = "stop" → g.started.getD i false = true) := by
  unfold globalAgentState.possibleEvents at h
  rw [List.mem_flatMap] at h
  obtain ⟨i, hi, hmem⟩ := h
  rw [List.mem_range] at hi
  refine ⟨i, hi, ?_⟩
  simp only at hmem
  split at hmem
  · split at hmem
    · rw [List.mem_append] at hmem
      rcases hmem with hmem | hmem
      · split at hmem
        · simp only [List.mem_singleton] at hmem
          subst hmem
          refine ⟨rfl, by simp, by simp_all⟩
        · simp at hmem
      · simp only [List.mem_singleton] at hmem
        subst hmem
        refine ⟨rfl, by simp, by simp_all⟩
    · rw [List.mem_append] at hmem
      rcases hmem with hmem | hmem
      · simp only [List.mem_cons, List.mem_singleton] at hmem
        rcases hmem with hmem | hmem | hmem
        all_goals (first
          | (subst hmem; refine ⟨rfl, by simp_all, by simp⟩)
          | simp at hmem)
      · split at hmem
        · simp only [List.mem_singleton] at hmem
          subst hmem
          refine ⟨rfl, by simp, by simp⟩
        · simp at hmem
  · simp only [List.mem_singleton] at hmem
    subst hmem
    refine ⟨rfl, by simp, by simp⟩


/-- Main alternation invariant: along any accepted run, the start/stop
events of agent `id` alternate, the next expected kind being determined
by the agent's current `started` flag. -/
theorem run_alternates_aux (id : Int) (hid : 1 ≤ id) :
    ∀ (tr : List GEvent) (g g' : globalAgentState), Run g tr g' → g.WF →
      alternatesFrom (g.started.getD (id - 1).toNat false) (startStopKinds id tr) := by
  intro tr
  induction tr with
  | nil => intro g g' _ _; trivial
  | cons e es ih =>
    intro g g' hrun hwf
    cases hrun with
    | cons hmem hstep htail =>
      rename_i g1
      have hwf1 : g1.WF := wf_waitEvent hstep hwf
      obtain ⟨i, hi, hei, hst, hsp⟩ := possibleEvents_inv hmem
      by_cases hfe : (e.id == id && (e.kind == "start" || e.kind == "stop")) = true
      · rw [startStopKinds]
        simp only [List.filter_cons, hfe, if_true, List.map_cons]
        simp only [Bool.and_eq_true, beq_iff_eq, Bool.or_eq_true] at hfe
        obtain ⟨heid, hkind⟩ := hfe
        have hidx : (id - 1).toNat = i := by omega
        have hidx2 : (e.id - 1).toNat = i := by omega
        rcases hkind with hk | hk
        · -- a start of agent id
          unfold globalAgentState.waitEvent at hstep
          rw [hk] at hstep
          simp only [Option.some.injEq] at hstep
          subst hstep
          rw [hidx, hst hk]
          refine ⟨by simp [hk], ?_⟩
          have h2 := ih _ _ htail hwf1
          rw [hidx] at h2
          have h2' : alternatesFrom
              ((g.started.set (e.id - 1).toNat true).getD i false)
              (startStopKinds id es) := h2
          rw [hidx2, getD_set_self _ i true false
            (by rw [hwf.2.1]; exact hi)] at h2'
          exact h2'
        · -- a stop of agent id
          unfold globalAgentState.waitEvent at hstep
          rw [hk] at hstep
          simp only [Option.some.injEq] at hstep
          subst hstep
          rw [hidx, hsp hk]
          refine ⟨by simp [hk], ?_⟩
          have h2 := ih _ _ htail hwf1
          rw [hidx] at h2
          have h2' : alternatesFrom
              ((g.started.set (e.id - 1).toNat false).getD i false)
              (startStopKinds id es) := h2
          rw [hidx2, getD_set_self _ i false false
            (by rw [hwf.2.1]; exact hi)] at h2'
          exact h2'
      · have hfilter : startStopKinds id (e :: es) = startStopKinds id es := by
          rw [startStopKinds, List.filter_cons_of_neg (by simpa using hfe)]
          rfl
        rw [hfilter]
        have hsame : g1.started.getD (id - 1).toNat false =
            g.started.getD (id - 1).toNat false := by
          unfold globalAgentState.waitEvent at hstep
          split at hstep
          · cases hstep; rfl
          · -- start of a different agent
            rename_i heq
            have hne : e.id ≠ id := by
              intro hc
              apply hfe
              simp [hc, heq]
            cases hstep
            simp only []
            exact getD_set_ne _ _ _ _ _ (by omega)
          · split at hstep
            · cases hstep
            · cases hstep; rfl
          · rename_i heq
            have hne : e.id ≠ id := by
              intro hc
              apply hfe
              simp [hc, heq]
            cases hstep
            simp only []
            exact getD_set_ne _ _ _ _ _ (by omega)
          · cases hstep; rfl
          · cases hstep
        rw [← hsame]
        exact ih _ _ htail hwf1


/-- Helper: `getD` on a replicated `false` list. -/
theorem getD_replicate_false :
    ∀ (n i : Nat), (List.replicate n false).getD i false = false
  | 0, _ => rfl
  | _ + 1, 0 => rfl
  | n + 1, i + 1 => getD_replicate_false n i


/-- C1: in any event sequence accepted by the harness automaton,
`operation` events of two different agents never interleave: between an
operation of agent `a` and a later operation of agent `b ≠ a`, a `stop`
event is always observed, so one agent's operations end (with a stop)
before another agent's begin. -/
theorem operations_of_different_agents_separated
    (g gN : globalAgentState) (t1 t2 t3 : List GEvent) (a b : Int)
    (hrun : Run g (t1 ++ { kind := "operation", id := a } ::
      (t2 ++ { kind := "operation", id := b } :: t3)) gN)
    (hab : a ≠ b) :
    ∃ e ∈ t2, e.kind = "stop" := by
  obtain ⟨g1, -, hrun1⟩ := run_append hrun
  cases hrun1 with
  | cons hmemA hstepA htail =>
    rename_i g2
    have ha : 1 ≤ a := possibleEvents_id_pos hmemA
    have hg2 : g2.activeId = a := by
      unfold globalAgentState.waitEvent at hstepA
      simp only at hstepA
      split at hstepA
      · cases hstepA
      · cases hstepA; rfl
    obtain ⟨g3, hrun2, hrun3⟩ := run_append htail
    by_contra hno
    push_neg at hno
    have hg3 : g3.activeId = a := by
      rw [activeId_no_stop hrun2 hno (by rw [hg2]; omega), hg2]
    cases hrun3 with
    | cons hmemB hstepB _ =>
      unfold globalAgentState.waitEvent at hstepB
      simp only at hstepB
      split at hstepB
      · cases hstepB
      · rename_i hcond
        push_neg at hcond
        rw [hg3] at hcond
        have := hcond (by omega)
        exact hab (by omega)


/-- Witness for C1 at a concrete accepted two-agent trace. -/
theorem operations_separated_witness :
    ∃ e ∈ [({ kind := "stop", id := 1 } : GEvent),
           { kind := "connect", id := 2 }, { kind := "start", id := 2 }],
      e.kind = "stop" :=
  operations_of_different_agents_separated (newGlobalAgentState 2) _
    [{ kind := "connect", id := 1 }, { kind := "start", id := 1 }]
    [{ kind := "stop", id := 1 }, { kind := "connect", id := 2 },
     { kind := "start", id := 2 }]
    [] 1 2
    (Run.cons (by decide) rfl (Run.cons (by decide) rfl
      (Run.cons (by decide) rfl (Run.cons (by decide) rfl
        (Run.cons (by decide) rfl (Run.cons (by decide) rfl
          (Run.cons (by decide) rfl (Run.nil _))))))))
    (by decide)


/-- C4: for any worker id, the observed sequence of start/stop events in
any accepted run from the initial harness state strictly alternates,
beginning with start. -/
theorem start_stop_alternation (n : Nat) (id : Int) (g' : globalAgentState)
    (tr : List GEvent) (hid : 1 ≤ id)
    (hrun : Run (newGlobalAgentState n) tr g') :
    alternatesFrom false (startStopKinds id tr) := by
  have h := run_alternates_aux id hid tr _ _ hrun
    ⟨by simp [newGlobalAgentState], by simp [newGlobalAgentState],
     by simp [newGlobalAgentState]⟩
  rwa [show (newGlobalAgentState n).started = List.replicate n false from rfl,
    getD_replicate_false] at h


/-- Witness for C4 at a concrete accepted one-agent trace. -/
theorem start_stop_alternation_witness :
    alternatesFrom false (startStopKinds 1
      [{ kind := "connect", id := 1 }, { kind := "start", id := 1 },
       { kind := "stop", id := 1 }]) :=
  start_stop_alternation 1 1 _ _ (by decide)
    (Run.cons (by decide) rfl (Run.cons (by decide) rfl
      (Run.cons (by decide) rfl (Run.nil _))))
